import Mathlib

/-!
Verification of the clIChing divination engine (`hexagram.py`, `display.py`,
`cli.py`) against its natural-language specification.

The shallow embedding below follows the Python source closely:

* `Yao` mirrors the `Yao` dataclass: `value` is the 0/1 integer of the source
  (0 = Yin, 1 = Yang), `changing` the mutability flag, `coins` the stored
  triple of binary coin outcomes.
* `Hexagram` holds the list of yaos; since the class is immutable and
  `__init__` always calls `_calculate_hexagram`, the eagerly stored
  `original_number` field is represented as the derived function
  `Hexagram.original_number` (always equal to what `__init__` stores).
* Randomness is made explicit: `generate_hexagram` takes the six drawn coin
  triples as a parameter, exactly the values `random.randint` would supply.
-/

structure Yao where
  value : Nat
  changing : Bool
  coins : Nat × Nat × Nat
deriving DecidableEq

/-- Default yao used with `List.getD` when reading a hexagram's line list. -/
def defaultYao : Yao := ⟨0, false, (0, 0, 0)⟩

/-- `sum(coins)` of the Python source for a three-coin tuple. -/
def coinSum (c : Nat × Nat × Nat) : Nat := c.1 + c.2.1 + c.2.2

structure Hexagram where
  yaos : List Yao
deriving DecidableEq

/-- The loop body of `Hexagram._calculate_hexagram`: starting at index `i`,
add `2 ^ index` for every yao whose `value` equals 1. -/
def calcNumberAux : Nat → List Yao → Nat
  | _, [] => 0
  | i, y :: ys => (if y.value = 1 then 2 ^ i else 0) + calcNumberAux (i + 1) ys

/-- `self.original_number` as computed by `_calculate_hexagram` at
construction time (first yao = least significant bit). -/
def Hexagram.original_number (h : Hexagram) : Nat := calcNumberAux 0 h.yaos

/-- `Hexagram.__init__`: stores the yao list (no validation of its length)
and eagerly computes `original_number`. -/
def mkHexagram (yaos : List Yao) : Hexagram := ⟨yaos⟩

/-- The classification in the body of `generate_hexagram`: from one drawn
coin triple, build the `Yao` according to the sum of the coins. -/
def classifyYao (coins : Nat × Nat × Nat) : Yao :=
  let sum_coins := coinSum coins
  if sum_coins = 0 then ⟨0, true, coins⟩
  else if sum_coins = 1 then ⟨1, false, coins⟩
  else if sum_coins = 2 then ⟨0, false, coins⟩
  else ⟨1, true, coins⟩

/-- `generate_hexagram`, with the six random coin triples passed in
explicitly (the source draws them from `random.randint(0, 1)`). -/
def generate_hexagram (draws : Fin 6 → Nat × Nat × Nat) : Hexagram :=
  mkHexagram (List.ofFn fun i => classifyYao (draws i))

/-- One iteration of the loop in `Hexagram.get_changing_hexagram`: given the
1-based `position` of `yao`, build the yao of the derived hexagram. -/
def changedYao (positions : List Nat) (position : Nat) (yao : Yao) : Yao :=
  if position ∈ positions ∧ yao.changing then
    let new_value : Nat := if yao.value = 0 then 1 else 0
    let new_coins : Nat × Nat × Nat :=
      if new_value = 0 then (0, 1, 1) else (1, 0, 0)
    ⟨new_value, false, new_coins⟩
  else
    ⟨yao.value, yao.changing, yao.coins⟩

/-- The enumeration loop of `get_changing_hexagram`: `idx` is the 0-based
index of the first yao of the remaining list. -/
def changeYaos (positions : List Nat) : Nat → List Yao → List Yao
  | _, [] => []
  | idx, yao :: rest =>
      changedYao positions (idx + 1) yao :: changeYaos positions (idx + 1) rest

/-- `Hexagram.get_changing_hexagram`: derive the changing hexagram from the
given 1-based yao positions. -/
def Hexagram.get_changing_hexagram (h : Hexagram) (positions : List Nat) :
    Hexagram :=
  mkHexagram (changeYaos positions 0 h.yaos)

/-- ANSI color codes of `display.Color` used by `colored_yao`. -/
def Color.RED : String := "\x1b[91m"

def Color.BLUE : String := "\x1b[94m"

def Color.END : String := "\x1b[0m"

/-- `display.colored_yao`: colored rendering of one yao, classified from the
stored coin triple (the `value` argument is unused by the source too). -/
def colored_yao (coins : Nat × Nat × Nat) (value : Nat) (changing : Bool) :
    String :=
  let sum_coins := coinSum coins
  if sum_coins = 0 then
    Color.BLUE ++ "### ###" ++ Color.END ++ (if changing then " x" else "")
  else if sum_coins = 1 then
    Color.RED ++ "#######" ++ Color.END
  else if sum_coins = 2 then
    Color.RED ++ "### ###" ++ Color.END
  else
    Color.BLUE ++ "#######" ++ Color.END ++ (if changing then " o" else "")

/-- `Yao.display`: colored mode delegates to `colored_yao`; plain mode is the
no-color branch of the source, ternaries transcribed verbatim. -/
def Yao.display (y : Yao) (colored : Bool) : String :=
  if colored then
    colored_yao y.coins y.value y.changing
  else
    if y.value = 0 then
      if y.changing then "### ###" else "#######"
    else
      if y.changing then "#######" else "### ###"

/-- Result of the position-handling part of `cli.DivinationTable.change_hexagram`
after number parsing: the command is rejected with an error message, or no
selected yao is changeable, or a derived hexagram is produced. -/
inductive ChangeResult where
  | rejected (pos : Nat)
  | noChangeable
  | changed (h : Hexagram)
deriving DecidableEq

def ChangeResult.isRejected : ChangeResult → Bool
  | .rejected _ => true
  | _ => false

/-- The validation and dispatch logic of `cli.DivinationTable.change_hexagram`
on the already-parsed, deduplicated list of positions: reject if any position
is outside 1..6, otherwise keep only positions whose yao is changing and
derive when that filtered list is nonempty. -/
def change_hexagram (h : Hexagram) (positions : List Nat) : ChangeResult :=
  match positions.find? (fun pos => decide (pos < 1 ∨ 6 < pos)) with
  | some pos => .rejected pos
  | none =>
      let changing_positions :=
        positions.filter (fun pos => (h.yaos.getD (pos - 1) defaultYao).changing)
      if changing_positions.isEmpty then .noChangeable
      else .changed (h.get_changing_hexagram changing_positions)

/-- The concrete six-line scenario of the spec (bottom to top): old Yin,
young Yang, young Yin, young Yang, young Yin, old Yang. -/
def exampleYaos : List Yao :=
  [⟨0, true, (0, 0, 0)⟩, ⟨1, false, (0, 0, 1)⟩, ⟨0, false, (1, 1, 0)⟩,
   ⟨1, false, (0, 0, 1)⟩, ⟨0, false, (1, 1, 0)⟩, ⟨1, true, (1, 1, 1)⟩]

def exampleHexagram : Hexagram := mkHexagram exampleYaos

/-! ### Helper lemmas about the classification and the derivation loop -/

theorem classifyYao_coins (c : Nat × Nat × Nat) : (classifyYao c).coins = c := by
  simp only [classifyYao]
  split_ifs <;> rfl

theorem changedYao_self (ps : List Nat) (p : Nat) (y : Yao)
    (h : ¬(p ∈ ps ∧ y.changing)) : changedYao ps p y = y := by
  simp only [changedYao, if_neg h]

theorem changedYao_idem (ps : List Nat) (p : Nat) (y : Yao) :
    changedYao ps p (changedYao ps p y) = changedYao ps p y := by
  by_cases h : p ∈ ps ∧ y.changing
  · by_cases hv : y.value = 0 <;> simp [changedYao, h, hv]
  · rw [changedYao_self ps p y h, changedYao_self ps p y h]

theorem changedYao_congr (ps qs : List Nat) (p : Nat) (y : Yao)
    (h : p ∈ ps ↔ p ∈ qs) : changedYao ps p y = changedYao qs p y := by
  by_cases hp : p ∈ ps
  · simp [changedYao, hp, h.mp hp]
  · have hq : p ∉ qs := fun hq => hp (h.mpr hq)
    simp [changedYao, hp, hq]

theorem changeYaos_length (ps : List Nat) :
    ∀ (ys : List Yao) (k : Nat), (changeYaos ps k ys).length = ys.length
  | [], _ => rfl
  | _ :: ys, k => by simp [changeYaos, changeYaos_length ps ys (k + 1)]

theorem changeYaos_nil : ∀ (ys : List Yao) (k : Nat), changeYaos [] k ys = ys
  | [], _ => rfl
  | y :: ys, k => by simp [changeYaos, changedYao, changeYaos_nil ys (k + 1)]

theorem changeYaos_getD (ps : List Nat) :
    ∀ (ys : List Yao) (k idx : Nat), idx < ys.length →
      (changeYaos ps k ys).getD idx defaultYao
        = changedYao ps (k + idx + 1) (ys.getD idx defaultYao)
  | [], _, idx, h => absurd h (by simp)
  | y :: ys, k, 0, _ => by simp [changeYaos]
  | y :: ys, k, idx + 1, h => by
      have ih := changeYaos_getD ps ys (k + 1) idx (by simpa using h)
      have harith : k + 1 + idx + 1 = k + (idx + 1) + 1 := by omega
      rw [harith] at ih
      simpa [changeYaos] using ih

theorem changeYaos_idem (ps : List Nat) :
    ∀ (ys : List Yao) (k : Nat),
      changeYaos ps k (changeYaos ps k ys) = changeYaos ps k ys
  | [], _ => rfl
  | y :: ys, k => by
      simp [changeYaos, changedYao_idem, changeYaos_idem ps ys (k + 1)]

theorem changeYaos_congr (ps qs : List Nat) :
    ∀ (ys : List Yao) (k : Nat),
      (∀ i, k + 1 ≤ i → i ≤ k + ys.length → (i ∈ ps ↔ i ∈ qs)) →
      changeYaos ps k ys = changeYaos qs k ys
  | [], _, _ => rfl
  | y :: ys, k, h => by
      have h1 := changedYao_congr ps qs (k + 1) y
        (h (k + 1) le_rfl (by simp only [List.length_cons]; omega))
      have h2 := changeYaos_congr ps qs ys (k + 1)
        (fun i hi1 hi2 => h i (by omega)
          (by simp only [List.length_cons]; omega))
      simp [changeYaos, h1, h2]

theorem calcNumberAux_eq_sum :
    ∀ (ys : List Yao) (k : Nat),
      calcNumberAux k ys
        = ∑ i ∈ Finset.range ys.length,
            (if (ys.getD i defaultYao).value = 1 then 2 ^ (k + i) else 0)
  | [], k => by simp [calcNumberAux]
  | y :: ys, k => by
      rw [calcNumberAux, calcNumberAux_eq_sum ys (k + 1), List.length_cons,
        Finset.sum_range_succ']
      simp only [List.getD_cons_succ, List.getD_cons_zero, Nat.add_zero]
      rw [Nat.add_comm]
      congr 1
      apply Finset.sum_congr rfl
      intro i _
      have h1 : k + 1 + i = k + (i + 1) := by omega
      rw [h1]

theorem calcNumberAux_le :
    ∀ (ys : List Yao) (k : Nat),
      calcNumberAux k ys ≤ 2 ^ (k + ys.length) - 2 ^ k
  | [], k => by simp [calcNumberAux]
  | y :: ys, k => by
      have ih := calcNumberAux_le ys (k + 1)
      have h2 : 2 ^ (k + 1) ≤ 2 ^ (k + 1 + ys.length) :=
        Nat.pow_le_pow_right (by norm_num) (by omega)
      have h3 : 2 ^ (k + 1) = 2 * 2 ^ k := by rw [Nat.pow_succ]; ring
      have h5 : k + (y :: ys).length = k + 1 + ys.length := by
        simp only [List.length_cons]; omega
      rw [calcNumberAux, h5]
      split <;> omega

/-! ### Claims -/

/-- C1: each of the 8 possible coin triples classifies per the table (sum 0:
Yin and mutable; sum 1: Yang, not mutable; sum 2: Yin, not mutable; sum 3:
Yang and mutable), and `generate_hexagram` produces exactly 6 lines, each of
which is the classification of its drawn coin triple. -/
theorem C1_classification_and_generate :
    (∀ a b c : Fin 2,
      (a.val + b.val + c.val = 0 →
        (classifyYao (a.val, b.val, c.val)).value = 0 ∧
        (classifyYao (a.val, b.val, c.val)).changing = true) ∧
      (a.val + b.val + c.val = 1 →
        (classifyYao (a.val, b.val, c.val)).value = 1 ∧
        (classifyYao (a.val, b.val, c.val)).changing = false) ∧
      (a.val + b.val + c.val = 2 →
        (classifyYao (a.val, b.val, c.val)).value = 0 ∧
        (classifyYao (a.val, b.val, c.val)).changing = false) ∧
      (a.val + b.val + c.val = 3 →
        (classifyYao (a.val, b.val, c.val)).value = 1 ∧
        (classifyYao (a.val, b.val, c.val)).changing = true)) ∧
    ∀ draws : Fin 6 → Nat × Nat × Nat,
      (generate_hexagram draws).yaos.length = 6 ∧
      ∀ y ∈ (generate_hexagram draws).yaos, classifyYao y.coins = y := by
  constructor
  · decide
  · intro draws
    constructor
    · simp [generate_hexagram, mkHexagram]
    · intro y hy
      simp only [generate_hexagram, mkHexagram, List.mem_ofFn] at hy
      obtain ⟨i, rfl⟩ := hy
      rw [classifyYao_coins]

/-- C1 witness: the table applied to the all-zero triple, and the generator
applied to constant all-zero draws. -/
theorem C1_witness :
    ((0 : Fin 2).val + (0 : Fin 2).val + (0 : Fin 2).val = 0 ∧
      (classifyYao ((0 : Fin 2).val, (0 : Fin 2).val, (0 : Fin 2).val)).value = 0 ∧
      (classifyYao ((0 : Fin 2).val, (0 : Fin 2).val, (0 : Fin 2).val)).changing = true) ∧
    ((generate_hexagram fun _ => (0, 0, 0)).yaos.length = 6 ∧
      classifyYao ((generate_hexagram fun _ => (0, 0, 0)).yaos.getD 0 defaultYao).coins
        = (generate_hexagram fun _ => (0, 0, 0)).yaos.getD 0 defaultYao) :=
  ⟨⟨rfl, (C1_classification_and_generate.1 0 0 0).1 rfl⟩,
   ⟨(C1_classification_and_generate.2 (fun _ => (0, 0, 0))).1,
    (C1_classification_and_generate.2 (fun _ => (0, 0, 0))).2
      ((generate_hexagram fun _ => (0, 0, 0)).yaos.getD 0 defaultYao) (by decide)⟩⟩

/-- C2: for every 6-line sequence, the identity computed at construction is
the bit-sum where line i (0-based) contributes 2^i exactly when it is Yang,
and the identity is at most 63. -/
theorem C2_identity_formula (ys : List Yao) (h6 : ys.length = 6) :
    (mkHexagram ys).original_number
      = ∑ i ∈ Finset.range 6,
          (if (ys.getD i defaultYao).value = 1 then 2 ^ i else 0) ∧
    (mkHexagram ys).original_number ≤ 63 := by
  constructor
  · have h := calcNumberAux_eq_sum ys 0
    simpa [Hexagram.original_number, mkHexagram, h6] using h
  · have h := calcNumberAux_le ys 0
    rw [h6] at h
    norm_num at h
    simpa [Hexagram.original_number, mkHexagram] using h

/-- C2 witness: the spec's concrete six-line scenario (identity 42). -/
theorem C2_witness :
    exampleYaos.length = 6 ∧
    ((mkHexagram exampleYaos).original_number
        = ∑ i ∈ Finset.range 6,
            (if (exampleYaos.getD i defaultYao).value = 1 then 2 ^ i else 0) ∧
      (mkHexagram exampleYaos).original_number ≤ 63) :=
  ⟨by decide, C2_identity_formula exampleYaos (by decide)⟩

theorem changedYao_changed (ps : List Nat) (p : Nat) (y : Yao)
    (hmem : p ∈ ps) (hch : y.changing = true) :
    (changedYao ps p y).value = (if y.value = 0 then 1 else 0) ∧
    (changedYao ps p y).changing = false ∧
    classifyYao (changedYao ps p y).coins = changedYao ps p y ∧
    coinSum (changedYao ps p y).coins
      = (if (changedYao ps p y).value = 1 then 1 else 2) := by
  have hcond : p ∈ ps ∧ y.changing := ⟨hmem, hch⟩
  by_cases hv : y.value = 0 <;>
    simp [changedYao, hcond, hv, classifyYao, coinSum]

/-- C3: in the derived hexagram, a line that was selected and mutable has
the negated value, is no longer mutable, and carries a synthesized coin
triple that itself classifies back to the line (young state): its coin sum
is 1 when the new line is Yang and 2 when it is Yin. -/
theorem C3_changed_line (h : Hexagram) (ps : List Nat) (idx : Nat)
    (hidx : idx < h.yaos.length) (hmem : idx + 1 ∈ ps)
    (hch : (h.yaos.getD idx defaultYao).changing = true) :
    ((h.get_changing_hexagram ps).yaos.getD idx defaultYao).value
        = (if (h.yaos.getD idx defaultYao).value = 0 then 1 else 0) ∧
    ((h.get_changing_hexagram ps).yaos.getD idx defaultYao).changing = false ∧
    classifyYao ((h.get_changing_hexagram ps).yaos.getD idx defaultYao).coins
        = (h.get_changing_hexagram ps).yaos.getD idx defaultYao ∧
    coinSum ((h.get_changing_hexagram ps).yaos.getD idx defaultYao).coins
        = (if ((h.get_changing_hexagram ps).yaos.getD idx defaultYao).value = 1
            then 1 else 2) := by
  have hg : (h.get_changing_hexagram ps).yaos.getD idx defaultYao
      = changedYao ps (idx + 1) (h.yaos.getD idx defaultYao) := by
    have hgd := changeYaos_getD ps h.yaos 0 idx hidx
    simpa [Hexagram.get_changing_hexagram, mkHexagram] using hgd
  rw [hg]
  exact changedYao_changed ps (idx + 1) (h.yaos.getD idx defaultYao) hmem hch

/-- C3 witness: the spec's concrete scenario, deriving with positions 1 and
6; line 1 (old Yin) flips to young Yang. -/
theorem C3_witness :
    (0 < exampleHexagram.yaos.length ∧ (0 : Nat) + 1 ∈ [1, 6] ∧
      (exampleHexagram.yaos.getD 0 defaultYao).changing = true) ∧
    (((exampleHexagram.get_changing_hexagram [1, 6]).yaos.getD 0 defaultYao).value
        = (if (exampleHexagram.yaos.getD 0 defaultYao).value = 0 then 1 else 0) ∧
      ((exampleHexagram.get_changing_hexagram [1, 6]).yaos.getD 0 defaultYao).changing
        = false ∧
      classifyYao
          ((exampleHexagram.get_changing_hexagram [1, 6]).yaos.getD 0 defaultYao).coins
        = (exampleHexagram.get_changing_hexagram [1, 6]).yaos.getD 0 defaultYao ∧
      coinSum
          ((exampleHexagram.get_changing_hexagram [1, 6]).yaos.getD 0 defaultYao).coins
        = (if ((exampleHexagram.get_changing_hexagram [1, 6]).yaos.getD 0
                defaultYao).value = 1
            then 1 else 2)) :=
  ⟨⟨by decide, by decide, by decide⟩,
   C3_changed_line exampleHexagram [1, 6] 0 (by decide) (by decide) (by decide)⟩

/-- C4: a line whose position is unselected, or whose mutable flag is false,
is copied unchanged by the derivation; and deriving with the empty position
list preserves all line contents and the identity. -/
theorem C4_frame :
    (∀ (h : Hexagram) (ps : List Nat) (idx : Nat), idx < h.yaos.length →
      (idx + 1 ∉ ps ∨ (h.yaos.getD idx defaultYao).changing = false) →
      (h.get_changing_hexagram ps).yaos.getD idx defaultYao
        = h.yaos.getD idx defaultYao) ∧
    ∀ h : Hexagram,
      (h.get_changing_hexagram []).yaos = h.yaos ∧
      (h.get_changing_hexagram []).original_number = h.original_number := by
  constructor
  · intro h ps idx hidx hside
    have hg : (h.get_changing_hexagram ps).yaos.getD idx defaultYao
        = changedYao ps (idx + 1) (h.yaos.getD idx defaultYao) := by
      have hgd := changeYaos_getD ps h.yaos 0 idx hidx
      simpa [Hexagram.get_changing_hexagram, mkHexagram] using hgd
    rw [hg]
    apply changedYao_self
    rintro ⟨h1, h2⟩
    rcases hside with h3 | h3
    · exact h3 h1
    · rw [h3] at h2
      exact Bool.false_ne_true h2
  · intro h
    have hy : (h.get_changing_hexagram []).yaos = h.yaos := by
      simp [Hexagram.get_changing_hexagram, mkHexagram, changeYaos_nil]
    exact ⟨hy, by simp [Hexagram.original_number, hy]⟩

/-- C4 witness: the spec's scenario: deriving with position 2 (young Yang,
not mutable) leaves line 2 unchanged; the empty-set derivation preserves the
whole hexagram. -/
theorem C4_witness :
    (1 < exampleHexagram.yaos.length ∧
      ((1 : Nat) + 1 ∉ ([2] : List Nat) ∨
        (exampleHexagram.yaos.getD 1 defaultYao).changing = false) ∧
      (exampleHexagram.get_changing_hexagram [2]).yaos.getD 1 defaultYao
        = exampleHexagram.yaos.getD 1 defaultYao) ∧
    ((exampleHexagram.get_changing_hexagram []).yaos = exampleHexagram.yaos ∧
      (exampleHexagram.get_changing_hexagram []).original_number
        = exampleHexagram.original_number) :=
  ⟨⟨by decide, Or.inr (by decide),
    C4_frame.1 exampleHexagram [2] 1 (by decide) (Or.inr (by decide))⟩,
   C4_frame.2 exampleHexagram⟩

/-- C5: applying the derivation a second time with the same positions is a
no-op: every line changed by the first pass has its mutable flag cleared,
and every other line reproduces the same branch of the loop. -/
theorem C5_derive_again (h : Hexagram) (ps : List Nat) :
    (h.get_changing_hexagram ps).get_changing_hexagram ps
      = h.get_changing_hexagram ps := by
  simp [Hexagram.get_changing_hexagram, mkHexagram, changeYaos_idem]

/-- C6 counterexample: `Hexagram.__init__` performs no length validation:
constructing from the empty line sequence (length 0, not 6) does not fail
and yields a hexagram with identity 0. -/
theorem C6_counterexample :
    ([] : List Yao).length ≠ 6 ∧
    (mkHexagram ([] : List Yao)).yaos = [] ∧
    (mkHexagram ([] : List Yao)).original_number = 0 :=
  ⟨by decide, rfl, rfl⟩

/-- C6 amended: construction never fails fast; for a line sequence of any
length the constructor returns a hexagram holding exactly the given lines,
with an identity computed from them that is below 2 ^ length. -/
theorem C6_construction_total (ys : List Yao) :
    (mkHexagram ys).yaos = ys ∧
    (mkHexagram ys).original_number ≤ 2 ^ ys.length - 1 := by
  refine ⟨rfl, ?_⟩
  have h := calcNumberAux_le ys 0
  simpa [Hexagram.original_number, mkHexagram] using h

/-- C7: generation and display logic do NOT agree. For a young Yang line
(coins summing to 1, value Yang, not mutable) the plain rendering shows the
broken symbol while the colored rendering shows the solid one, and
symmetrically for a young Yin line: the plain-mode ternaries of
`Yao.display` are swapped relative to the coin classification used by
`colored_yao`. -/
theorem C7_display_disagreement :
    classifyYao (0, 0, 1) = ⟨1, false, (0, 0, 1)⟩ ∧
    Yao.display ⟨1, false, (0, 0, 1)⟩ false = "### ###" ∧
    colored_yao (0, 0, 1) 1 false = Color.RED ++ "#######" ++ Color.END ∧
    classifyYao (1, 1, 0) = ⟨0, false, (1, 1, 0)⟩ ∧
    Yao.display ⟨0, false, (1, 1, 0)⟩ false = "#######" ∧
    colored_yao (1, 1, 0) 0 false = Color.RED ++ "### ###" ++ Color.END :=
  ⟨by decide, rfl, rfl, by decide, rfl, rfl⟩

theorem changedYao_classify (ps : List Nat) (p : Nat) (y : Yao)
    (hy : classifyYao y.coins = y) :
    classifyYao (changedYao ps p y).coins = changedYao ps p y := by
  by_cases h : p ∈ ps ∧ y.changing
  · by_cases hv : y.value = 0 <;>
      simp [changedYao, h, hv, classifyYao, coinSum]
  · rw [changedYao_self ps p y h]
    exact hy

theorem changeYaos_classified (ps : List Nat) :
    ∀ (ys : List Yao) (k : Nat),
      (∀ y ∈ ys, classifyYao y.coins = y) →
      ∀ y ∈ changeYaos ps k ys, classifyYao y.coins = y
  | [], _, _, y, hy => absurd hy (by simp [changeYaos])
  | z :: ys, k, h, y, hy => by
      simp only [changeYaos, List.mem_cons] at hy
      rcases hy with rfl | hy
      · exact changedYao_classify ps (k + 1) z (h z (List.mem_cons_self z ys))
      · exact changeYaos_classified ps ys (k + 1)
          (fun w hw => h w (List.mem_cons_of_mem z hw)) y hy

/-- C8: the invariant that classifying the stored coin triple reproduces
exactly the stored value and mutable flag holds for every line of a
generated hexagram, and is preserved by the derivation operation. -/
theorem C8_invariant :
    (∀ draws : Fin 6 → Nat × Nat × Nat,
      ∀ y ∈ (generate_hexagram draws).yaos, classifyYao y.coins = y) ∧
    ∀ (h : Hexagram) (ps : List Nat),
      (∀ y ∈ h.yaos, classifyYao y.coins = y) →
      ∀ y ∈ (h.get_changing_hexagram ps).yaos, classifyYao y.coins = y := by
  constructor
  · intro draws y hy
    simp only [generate_hexagram, mkHexagram, List.mem_ofFn] at hy
    obtain ⟨i, rfl⟩ := hy
    rw [classifyYao_coins]
  · intro h ps hinv y hy
    exact changeYaos_classified ps h.yaos 0 hinv y hy

/-- C8 witness: the first line of a hexagram generated from all-ones draws,
and the first line of the spec scenario's derivation at position 1. -/
theorem C8_witness :
    classifyYao
        ((generate_hexagram fun _ => (1, 1, 1)).yaos.getD 0 defaultYao).coins
      = (generate_hexagram fun _ => (1, 1, 1)).yaos.getD 0 defaultYao ∧
    classifyYao
        ((exampleHexagram.get_changing_hexagram [1]).yaos.getD 0 defaultYao).coins
      = (exampleHexagram.get_changing_hexagram [1]).yaos.getD 0 defaultYao :=
  ⟨C8_invariant.1 (fun _ => (1, 1, 1))
      ((generate_hexagram fun _ => (1, 1, 1)).yaos.getD 0 defaultYao) (by decide),
   C8_invariant.2 exampleHexagram [1] (by decide)
      ((exampleHexagram.get_changing_hexagram [1]).yaos.getD 0 defaultYao)
      (by decide)⟩

/-- C9: whenever the parsed position list contains a value outside 1..6, the
CLI handler rejects the request (no derivation is performed), and the core
derivation on a six-line hexagram ignores an out-of-range position entirely:
it is not clamped or wrapped into range. -/
theorem C9_out_of_range :
    (∀ (h : Hexagram) (ps : List Nat) (p : Nat), p ∈ ps → (p < 1 ∨ 6 < p) →
      (change_hexagram h ps).isRejected = true) ∧
    ∀ (h : Hexagram) (ps : List Nat) (p : Nat), h.yaos.length = 6 →
      (p < 1 ∨ 6 < p) →
      h.get_changing_hexagram (p :: ps) = h.get_changing_hexagram ps := by
  constructor
  · intro h ps p hmem hrange
    have hfind : (ps.find? (fun pos => decide (pos < 1 ∨ 6 < pos))).isSome := by
      rw [List.find?_isSome]
      exact ⟨p, hmem, decide_eq_true hrange⟩
    obtain ⟨q, hq⟩ := Option.isSome_iff_exists.mp hfind
    simp only [change_hexagram, hq, ChangeResult.isRejected]
  · intro h ps p hlen hrange
    have hc : changeYaos (p :: ps) 0 h.yaos = changeYaos ps 0 h.yaos := by
      apply changeYaos_congr
      intro i hi1 hi2
      rw [hlen] at hi2
      have hne : i ≠ p := by omega
      simp [List.mem_cons, hne]
    simp [Hexagram.get_changing_hexagram, hc]

/-- C9 witness: position 7 is rejected by the CLI handler, and position 0
has no effect on the core derivation of the spec's scenario. -/
theorem C9_witness :
    ((7 : Nat) ∈ [7] ∧ ((7 : Nat) < 1 ∨ 6 < (7 : Nat)) ∧
      (change_hexagram exampleHexagram [7]).isRejected = true) ∧
    (exampleHexagram.yaos.length = 6 ∧
      exampleHexagram.get_changing_hexagram [0, 1]
        = exampleHexagram.get_changing_hexagram [1]) :=
  ⟨⟨by decide, by decide,
    C9_out_of_range.1 exampleHexagram [7] 7 (by decide) (by decide)⟩,
   ⟨by decide, C9_out_of_range.2 exampleHexagram [1] 0 (by decide) (by decide)⟩⟩

/-- C10: the derivation is a total function of the position list that
depends only on which in-range positions occur in it: two lists that agree
on membership of every position of the hexagram give equal results, and on
a six-line hexagram the list may be replaced by its in-range, duplicate-free
normalization (out-of-range entries and duplicates have no effect). -/
theorem C10_positions_set_semantics :
    (∀ (h : Hexagram) (ps qs : List Nat),
      (∀ i, 1 ≤ i → i ≤ h.yaos.length → (i ∈ ps ↔ i ∈ qs)) →
      h.get_changing_hexagram ps = h.get_changing_hexagram qs) ∧
    ∀ (h : Hexagram) (ps : List Nat), h.yaos.length = 6 →
      h.get_changing_hexagram ps
        = h.get_changing_hexagram
            ((ps.filter fun p => decide (1 ≤ p ∧ p ≤ 6)).dedup) := by
  constructor
  · intro h ps qs hpq
    have hc : changeYaos ps 0 h.yaos = changeYaos qs 0 h.yaos := by
      apply changeYaos_congr
      intro i hi1 hi2
      exact hpq i (by omega) (by omega)
    simp [Hexagram.get_changing_hexagram, hc]
  · intro h ps hlen
    have hc : changeYaos ps 0 h.yaos
        = changeYaos ((ps.filter fun p => decide (1 ≤ p ∧ p ≤ 6)).dedup) 0
            h.yaos := by
      apply changeYaos_congr
      intro i hi1 hi2
      rw [hlen] at hi2
      have hb1 : 1 ≤ i := by omega
      have hb2 : i ≤ 6 := by omega
      simp [List.mem_dedup, List.mem_filter, hb1, hb2]
    simp [Hexagram.get_changing_hexagram, hc]

/-- C10 witness: on the spec's scenario, the list with out-of-range entries
0 and 99 and a duplicated 2 behaves as its normalization. -/
theorem C10_witness :
    exampleHexagram.yaos.length = 6 ∧
    exampleHexagram.get_changing_hexagram [0, 2, 2, 99]
      = exampleHexagram.get_changing_hexagram
          ((([0, 2, 2, 99] : List Nat).filter
              fun p => decide (1 ≤ p ∧ p ≤ 6)).dedup) :=
  ⟨by decide,
   C10_positions_set_semantics.2 exampleHexagram [0, 2, 2, 99] (by decide)⟩
